import Mathlib

/-!
Verification of the local-remote synchronization engine of the sage-notes
application (a note-taking app that syncs Markdown files with a GitHub
repository).

The embedding below translates the relevant source modules into pure Lean
definitions:

- the GitHub contents API is modeled as a flat path-to-content-and-hash store
  with optimistic concurrency (the hash of a stored file is a deterministic,
  injective function of its content, mirroring blob hashing);
- the local filesystem is modeled as a flat association list from
  repo-relative paths to file contents (the recursive directory walks in the
  source enumerate exactly the Markdown files under the repo directory, which
  is what the flat map captures; the per-file logic is translated verbatim);
- JavaScript objects and Maps used as dictionaries become association lists
  with set, erase and lookup helpers;
- debounce timers become explicit timer identifiers together with the set
  of cancelled identifiers, and timer firings are modeled as explicit events;
- async functions that throw become functions returning Except or functions
  that record an error field, matching the try and catch structure of the
  source.

Network transport failures are not modeled: every modeled remote operation
succeeds or fails according to the documented GitHub contents API semantics
(missing path, hash mismatch, missing hash).
-/

set_option autoImplicit false

/-! ## Association list helpers (JavaScript objects and Maps used as maps) -/

/-- Lookup in an association list, first match wins (JS property lookup). -/
def lookupA {α : Type} (l : List (String × α)) (p : String) : Option α :=
  (l.find? (fun e => e.1 == p)).map (fun e => e.2)

/-- Remove every binding of a key (JS delete on an object key). -/
def eraseA {α : Type} (l : List (String × α)) (p : String) : List (String × α) :=
  l.filter (fun e => e.1 != p)

/-- Set a key to a value (JS property assignment). -/
def setA {α : Type} (l : List (String × α)) (p : String) (v : α) : List (String × α) :=
  (p, v) :: eraseA l p

/-- The keys of the association list are pairwise distinct.  JS objects have
this by construction; it is stated as a hypothesis where needed. -/
def keysNodup {α : Type} (l : List (String × α)) : Prop :=
  (l.map Prod.fst).Nodup

/-! ## Remote store model (GitHub contents API semantics) -/

/-- The hash the remote store assigns to a content version.  GitHub blob
hashes are a deterministic function of content; the model uses an injective
string function. -/
def shaOf (content : String) : String := "sha-" ++ content

/-- A file as stored remotely: current hash and content. -/
structure RemoteFile where
  sha : String
  content : String
deriving DecidableEq, Repr

/-- The remote repository: a flat map from path to file. -/
abbrev RemoteState := List (String × RemoteFile)

/-- GET of a path: the current file, or none when the path is absent (404). -/
def remoteGet (r : RemoteState) (p : String) : Option RemoteFile :=
  lookupA r p

/-- PUT of a path.  GitHub semantics: updating an existing file requires the
  callers believed hash and rejects a mismatch (409); creating requires no
  hash; a hash for a missing file or a missing hash for an existing file is
  an error.  Returns the new store, or none when the call is rejected. -/
def remotePut (r : RemoteState) (p : String) (content : String)
    (sha : Option String) : Option RemoteState :=
  match remoteGet r p, sha with
  | none, none => some (setA r p { sha := shaOf content, content := content })
  | none, some _ => none
  | some rf, some s =>
      if s = rf.sha then some (setA r p { sha := shaOf content, content := content })
      else none
  | some _, none => none

/-- DELETE of a path: requires the callers believed hash to match (else 409);
  a missing path is an error (404). -/
def remoteDelete (r : RemoteState) (p : String) (sha : Option String) :
    Option RemoteState :=
  match remoteGet r p, sha with
  | none, _ => none
  | some _, none => none
  | some rf, some s => if s = rf.sha then some (eraseA r p) else none

/-- A remote operation performed by a sync routine, with its outcome. -/
inductive RemoteOp where
  | put (path : String) (sha : Option String) (ok : Bool)
  | del (path : String) (sha : Option String) (ok : Bool)
deriving DecidableEq, Repr

/-- The local filesystem: repo-relative path to file content. -/
abbrev LocalFs := List (String × String)

deriving instance DecidableEq for Except

/-! ## String helpers (kernel-computable models of the JS string operations) -/

/-- Does the pattern match at the head of the character list. -/
def matchesAt : List Char → List Char → Bool
  | [], _ => true
  | _ :: _, [] => false
  | p :: ps, c :: cs => p == c && matchesAt ps cs

/-- Model of JS String.endsWith. -/
def strEndsWith (s pat : String) : Bool :=
  matchesAt pat.data.reverse s.data.reverse

/-- Model of JS String.toLowerCase. -/
def strToLower (s : String) : String := String.mk (s.data.map Char.toLower)

/-- Everything after the first occurrence of the pattern, or none when the
pattern does not occur.  Models matching a regular expression of the shape
pattern followed by a nonempty captured group reaching the end. -/
def afterPattern (pat : List Char) : List Char → Option (List Char)
  | [] => none
  | c :: cs =>
      if matchesAt pat (c :: cs) then some (List.drop pat.length (c :: cs))
      else afterPattern pat cs

namespace GithubSync

/-!
Model of src/utils/githubSync.ts: the commit scheduler (debounced commits)
and the remote write primitive commitFile.
-/

/-- Source constant REPO_NAME in githubSync.ts. -/
def REPO_NAME : String := "notes"

/-- Source: getRelativePath.  Matches the regular expression
repos slash REPO_NAME slash followed by a captured nonempty rest, returning
the rest (greedy, first occurrence). -/
def getRelativePath (fullPath : String) : Option String :=
  match afterPattern ("repos/" ++ REPO_NAME ++ "/").data fullPath.data with
  | none => none
  | some [] => none
  | some rest => some (String.mk rest)

/-- Source interface FileMetadata: only the sha field is observed by the
modeled behavior (url and htmlUrl are carried verbatim from responses and
never read by the sync logic). -/
abbrev FileMetadataMap := List (String × String)

/-- The module-level remote-facing state of githubSync.ts: the remote
repository itself plus the in-memory fileMetadata map keyed by full path. -/
structure GhState where
  remote : RemoteState
  metadata : FileMetadataMap
deriving DecidableEq, Repr

/-- One PUT issued to the contents API by commitFile: the full local path it
was invoked with, the relative repository path, the content sent and the sha
field of the request body. -/
structure CommitCall where
  fullPath : String
  relPath : String
  content : String
  shaSent : Option String
deriving DecidableEq, Repr

/-- Source: commitFile.  Steps, as in the source: require a token; parse the
relative path; when both oldPath and oldFileSha are given, first DELETE the
old relative path with the given sha and drop its metadata (a failed delete
aborts with an error); then GET the target path to obtain its current sha,
if any; finally PUT the content with exactly that sha.  Returns the new
state and a record of the PUT, or the thrown error message. -/
def commitFile (token : Option String) (st : GhState)
    (fullPath content : String) (oldPath oldFileSha : Option String) :
    Except String (GhState × CommitCall) :=
  match token with
  | none => Except.error "No GitHub token found"
  | some _ =>
    match getRelativePath fullPath with
    | none => Except.error "Invalid file path format"
    | some relativePath =>
      let renameStep : Except String GhState :=
        match oldPath, oldFileSha with
        | some op, some osha =>
            (match getRelativePath op with
             | none => Except.error "Invalid old file path format"
             | some oldRelativePath =>
                 match remoteDelete st.remote oldRelativePath (some osha) with
                 | none => Except.error "Failed to delete old file during rename"
                 | some r' =>
                     Except.ok { remote := r', metadata := eraseA st.metadata op })
        | _, _ => Except.ok st
      match renameStep with
      | Except.error e => Except.error e
      | Except.ok st1 =>
        let sha : Option String := (remoteGet st1.remote relativePath).map (fun rf => rf.sha)
        let st2 : GhState :=
          match remoteGet st1.remote relativePath with
          | some rf => { st1 with metadata := setA st1.metadata fullPath rf.sha }
          | none => st1
        match remotePut st2.remote relativePath content sha with
        | none => Except.error "GitHub API error"
        | some r2 =>
            Except.ok
              ({ remote := r2, metadata := setA st2.metadata fullPath (shaOf content) },
               { fullPath := fullPath, relPath := relativePath,
                 content := content, shaSent := sha })

/-- Source: the pendingChanges entry: the debounce timer handle and the
content to commit. -/
structure PendingCommit where
  timerId : Nat
  content : String
deriving DecidableEq, Repr

/-- The scheduler state of githubSync.ts together with the remote state it
acts on.  timers records which path each created timer would commit;
cancelled records timer handles passed to clearTimeout; commits records the
PUT calls successfully issued; localFiles is the local filesystem, which the
scheduler never touches. -/
structure SyncState where
  gh : GhState
  localFiles : LocalFs
  pending : List (String × PendingCommit)
  cancelled : List Nat
  timers : List (Nat × String)
  nextTimer : Nat
  commits : List CommitCall
deriving DecidableEq, Repr

/-- Current pending commit for a path. -/
def lookupPending (s : SyncState) (p : String) : Option PendingCommit :=
  lookupA s.pending p

/-- Source: scheduleCommit.  If a pending change exists for the path, its
timer is cleared; then the pending entry is replaced with the new content
and a fresh timer. -/
def scheduleCommit (s : SyncState) (path content : String) : SyncState :=
  let cancelled' :=
    match lookupPending s path with
    | some pc => pc.timerId :: s.cancelled
    | none => s.cancelled
  { s with
    pending := setA s.pending path { timerId := s.nextTimer, content := content }
    cancelled := cancelled'
    timers := (s.nextTimer, path) :: s.timers
    nextTimer := s.nextTimer + 1 }

/-- Source: commitPendingChange.  Returns immediately when no pending change
exists; otherwise takes the content, deletes the pending entry first, then
attempts commitFile; a failure is caught and logged, leaving the already
cleared pending state. -/
def commitPendingChange (token : Option String) (s : SyncState) (path : String) :
    SyncState :=
  match lookupPending s path with
  | none => s
  | some pc =>
      let s1 := { s with pending := eraseA s.pending path }
      match commitFile token s1.gh path pc.content none none with
      | .ok (gh', call) => { s1 with gh := gh', commits := s1.commits ++ [call] }
      | .error _ => s1

/-- A debounce timer firing.  A cleared timer never fires; an existing timer
runs commitPendingChange for the path it was created for. -/
def fireTimer (token : Option String) (s : SyncState) (tid : Nat) : SyncState :=
  if tid ∈ s.cancelled then s
  else
    match (s.timers.find? (fun e => e.1 == tid)).map (fun e => e.2) with
    | none => s
    | some path => commitPendingChange token s path

/-- Source: commitAllPendingChanges.  Clears every pending timer, then
commits every pending change (each one deleting its entry before the write,
failures caught per path). -/
def commitAllPendingChanges (token : Option String) (s : SyncState) : SyncState :=
  let paths := s.pending.map Prod.fst
  let s0 := { s with cancelled := s.pending.map (fun e => e.2.timerId) ++ s.cancelled }
  paths.foldl (fun acc p => commitPendingChange token acc p) s0

/-- Source: hasPendingChanges. -/
def hasPendingChanges (s : SyncState) (path : String) : Bool :=
  (lookupPending s path).isSome

end GithubSync

namespace FileTracker

/-!
Model of the tracker module in src/utils/fileTracker.ts: the lastCommitFiles
map, change detection (status) and the batch commit routine.
-/

/-- Source: the status field of interface FileStatus. -/
inductive StatusKind where
  | modified
  | added
  | deleted
  | renamed
deriving DecidableEq, Repr

/-- Source: interface FileStatus. -/
structure FileStatusEntry where
  path : String
  status : StatusKind
  oldPath : Option String := none
  sha : Option String := none
deriving DecidableEq, Repr

/-- Source: interface FileMetadata of fileTracker.ts, one entry of the
lastCommitFiles map: the last known remote sha and the cached content at the
last sync point.  The path field of the source struct duplicates the map key
and is dropped. -/
structure TrackedFile where
  sha : String
  content : String
deriving DecidableEq, Repr

/-- The lastCommitFiles map: path to last known sha and cached content. -/
abbrev Tracked := List (String × TrackedFile)

/-- Source: hasFileChanged.  A file with no tracked entry counts as changed;
a file that cannot be read counts as changed; otherwise the current content
is compared byte for byte against the cached content. -/
def hasFileChanged (current : Option String) (lastKnown : Option TrackedFile) : Bool :=
  match lastKnown with
  | none => true
  | some lk =>
      match current with
      | none => true
      | some c => c != lk.content

/-- The Markdown files the recursive directory scan of status visits:
exactly the entries whose path ends with the literal suffix dot md. -/
def mdFiles (localFs : LocalFs) : LocalFs :=
  localFs.filter (fun e => strEndsWith e.1 ".md")

/-- Source: status.  Every Markdown file found with no tracked entry emits
added; one whose content differs from the cached content emits modified
carrying the tracked sha; every tracked path absent from the scan emits
deleted carrying the tracked sha. -/
def status (localFs : LocalFs) (tracked : Tracked) : List FileStatusEntry :=
  let current := mdFiles localFs
  let changes := current.filterMap (fun e =>
    match lookupA tracked e.1 with
    | none => some { path := e.1, status := StatusKind.added }
    | some lastKnown =>
        if hasFileChanged (some e.2) (some lastKnown) then
          some { path := e.1, status := StatusKind.modified, sha := some lastKnown.sha }
        else
          none)
  let deletedChanges := tracked.filterMap (fun e =>
    if (current.map Prod.fst).contains e.1 then none
    else some { path := e.1, status := StatusKind.deleted, sha := some e.2.sha })
  changes ++ deletedChanges

/-- Source: initializeTracking.  When reset is true the map is cleared
first; then for each given path and sha, when the file exists locally its
current content is read and stored with the sha; missing files are skipped. -/
def initializeTracking (localFs : LocalFs) (tracked : Tracked)
    (files : List (String × String)) (reset : Bool) : Tracked :=
  let t0 := if reset then [] else tracked
  files.foldl (fun acc f =>
    match lookupA localFs f.1 with
    | none => acc
    | some content => setA acc f.1 { sha := f.2, content := content }) t0

/-- The result object of commit as the caller sees it. -/
structure CommitResult where
  success : Bool
  error : Option String
  changedFiles : List (String × String)
deriving DecidableEq, Repr

/-- The state threaded through the commit loop: the first thrown error if
any, the tracked map and remote store with every mutation performed up to
the throw kept (JS mutations are not rolled back), the changedFiles
accumulator and the remote operations issued. -/
structure CommitExec where
  error : Option String
  tracked : Tracked
  remote : RemoteState
  changedFiles : List (String × String)
  ops : List RemoteOp
deriving DecidableEq, Repr

/-- The per-change loop of commit.  added and modified PUT the current local
content with the sha carried by the change; deleted DELETEs with that sha
and drops the tracked entry at once; renamed DELETEs the old path without
checking the response, drops the old tracked entry, then PUTs the new path
without any sha; any rejected call throws, ending the loop with the
mutations so far kept. -/
def commitGo (localFs : LocalFs) :
    List FileStatusEntry → CommitExec → CommitExec
  | [], st => st
  | ch :: rest, st =>
      match ch.status with
      | StatusKind.added | StatusKind.modified =>
          (match lookupA localFs ch.path with
           | none => { st with error := some ("Failed to read " ++ ch.path) }
           | some content =>
               match remotePut st.remote ch.path content ch.sha with
               | none =>
                   { st with
                     error := some ("Failed to commit file " ++ ch.path)
                     ops := st.ops ++ [RemoteOp.put ch.path ch.sha false] }
               | some r' =>
                   commitGo localFs rest
                     { st with
                       remote := r'
                       changedFiles := st.changedFiles ++ [(ch.path, shaOf content)]
                       ops := st.ops ++ [RemoteOp.put ch.path ch.sha true] })
      | StatusKind.deleted =>
          (match remoteDelete st.remote ch.path ch.sha with
           | none =>
               { st with
                 error := some ("Failed to delete file " ++ ch.path)
                 ops := st.ops ++ [RemoteOp.del ch.path ch.sha false] }
           | some r' =>
               commitGo localFs rest
                 { st with
                   remote := r'
                   tracked := eraseA st.tracked ch.path
                   ops := st.ops ++ [RemoteOp.del ch.path ch.sha true] })
      | StatusKind.renamed =>
          (match ch.oldPath with
           | none => commitGo localFs rest st
           | some op =>
               let delStep : RemoteState × Bool :=
                 match remoteDelete st.remote op ch.sha with
                 | some r' => (r', true)
                 | none => (st.remote, false)
               let tr1 := eraseA st.tracked op
               match lookupA localFs ch.path with
               | none =>
                   { st with
                     error := some ("Failed to read " ++ ch.path)
                     remote := delStep.1
                     tracked := tr1
                     ops := st.ops ++ [RemoteOp.del op ch.sha delStep.2] }
               | some content =>
                   match remotePut delStep.1 ch.path content none with
                   | none =>
                       { st with
                         error := some ("Failed to rename file from " ++ op ++ " to " ++ ch.path)
                         remote := delStep.1
                         tracked := tr1
                         ops := st.ops ++
                           [RemoteOp.del op ch.sha delStep.2,
                            RemoteOp.put ch.path none false] }
                   | some r2 =>
                       commitGo localFs rest
                         { st with
                           remote := r2
                           tracked := tr1
                           changedFiles := st.changedFiles ++ [(ch.path, shaOf content)]
                           ops := st.ops ++
                             [RemoteOp.del op ch.sha delStep.2,
                              RemoteOp.put ch.path none true] })

/-- The post-loop pass of commit: store the new sha and a fresh read of the
local content for every successfully changed file; a failed read throws and
is caught by the surrounding handler. -/
def updateTrackedGo (localFs : LocalFs) :
    List (String × String) → Tracked → Option String × Tracked
  | [], tr => (none, tr)
  | (p, sha) :: rest, tr =>
      match lookupA localFs p with
      | none => (some ("Failed to read " ++ p), tr)
      | some content => updateTrackedGo localFs rest (setA tr p { sha := sha, content := content })

/-- Source: commit.  Runs the per-change loop, then on success updates the
tracked map from the changedFiles; any thrown error is caught and returned
in the result with success false, the mutations performed so far kept. -/
def commit (localFs : LocalFs) (changes : List FileStatusEntry)
    (tracked : Tracked) (remote : RemoteState) :
    CommitResult × Tracked × RemoteState × List RemoteOp :=
  let ex := commitGo localFs changes
    { error := none, tracked := tracked, remote := remote, changedFiles := [], ops := [] }
  match ex.error with
  | some msg =>
      ({ success := false, error := some msg, changedFiles := ex.changedFiles },
       ex.tracked, ex.remote, ex.ops)
  | none =>
      match updateTrackedGo localFs ex.changedFiles ex.tracked with
      | (some msg, tr') =>
          ({ success := false, error := some msg, changedFiles := ex.changedFiles },
           tr', ex.remote, ex.ops)
      | (none, tr') =>
          ({ success := true, error := none, changedFiles := ex.changedFiles },
           tr', ex.remote, ex.ops)

end FileTracker

namespace SyncManager

/-!
Model of syncFile in src/utils/syncManager.ts: the per-file conflict check
and resolution used by the periodic and full sync passes.
-/

/-- The two values the conflict prompt of handleConflict can resolve with:
the source promise has type local or remote, the alert offers exactly the
two buttons Keep My Changes and Use GitHub Version and is not cancelable. -/
inductive ConflictChoice where
  | keepLocal
  | useGithub
deriving DecidableEq, Repr

/-- The state syncFile leaves behind, plus a record of the remote
operations issued and whether the conflict prompt was shown. -/
structure SyncFileOut where
  success : Bool
  localFs : LocalFs
  tracked : FileTracker.Tracked
  remote : RemoteState
  ops : List RemoteOp
  prompted : Bool
deriving DecidableEq, Repr

/-- Source: syncFile.  Reads the current remote state of the path; when the
path is absent remotely or its sha equals the sha carried by the change, the
change is pushed through commit.  Otherwise, when status reports no
modified entry for the path, the remote version is taken silently (local
write plus initializeTracking).  Otherwise the user is prompted; keeping
local commits the change with the remote sha substituted as the expected
base; taking remote overwrites the local file and tracking.  The choice
argument is the resolution of the prompt. -/
def syncFile (choice : ConflictChoice) (localFs : LocalFs)
    (tracked : FileTracker.Tracked) (remote : RemoteState)
    (change : FileTracker.FileStatusEntry) : SyncFileOut :=
  match remoteGet remote change.path with
  | none =>
      let r := FileTracker.commit localFs [change] tracked remote
      { success := r.1.success, localFs := localFs, tracked := r.2.1,
        remote := r.2.2.1, ops := r.2.2.2, prompted := false }
  | some githubFile =>
      if change.sha = some githubFile.sha then
        let r := FileTracker.commit localFs [change] tracked remote
        { success := r.1.success, localFs := localFs, tracked := r.2.1,
          remote := r.2.2.1, ops := r.2.2.2, prompted := false }
      else
        let localChanges := FileTracker.status localFs tracked
        let hasLocalChanges := localChanges.any (fun c =>
          c.path == change.path && c.status == FileTracker.StatusKind.modified)
        if hasLocalChanges then
          match choice with
          | ConflictChoice.keepLocal =>
              let r := FileTracker.commit localFs
                [{ change with sha := some githubFile.sha }] tracked remote
              { success := r.1.success, localFs := localFs, tracked := r.2.1,
                remote := r.2.2.1, ops := r.2.2.2, prompted := true }
          | ConflictChoice.useGithub =>
              let localFs' := setA localFs change.path githubFile.content
              let tracked' := FileTracker.initializeTracking localFs' tracked
                [(change.path, githubFile.sha)] false
              { success := true, localFs := localFs', tracked := tracked',
                remote := remote, ops := [], prompted := true }
        else
          let localFs' := setA localFs change.path githubFile.content
          let tracked' := FileTracker.initializeTracking localFs' tracked
            [(change.path, githubFile.sha)] false
          { success := true, localFs := localFs', tracked := tracked',
            remote := remote, ops := [], prompted := false }

end SyncManager

namespace TrackerSync

/-!
Model of syncFromGitHub, the full reconciliation routine of the second
module concatenated in src/utils/fileTracker.ts.  It lists the remote tree,
deletes every local Markdown file whose path is absent from the remote
listing (dropping its fileMetadata entry), then downloads every remote
Markdown file over the local copy.  It never touches the lastCommitFiles
tracking map.
-/

/-- A file as returned by the recursive remote listing together with the
content its download yields. -/
structure GitHubItem where
  path : String
  sha : String
  content : String
deriving DecidableEq, Repr

/-- Source: syncFromGitHub, after the remote listing and the local walk.
Arguments: the remote items (type file, any extension; the routine filters
Markdown itself), the local files keyed by repo-relative path, the module
fileMetadata map, and the tracker lastCommitFiles map.  Returns the new
local files, new fileMetadata and the unchanged tracked map. -/
def syncFromGitHub (items : List GitHubItem) (localFs : LocalFs)
    (metadata : List (String × String)) (tracked : FileTracker.Tracked) :
    LocalFs × List (String × String) × FileTracker.Tracked :=
  let githubFiles := items.filter (fun f => strEndsWith (strToLower f.path) ".md")
  let githubPaths := githubFiles.map (fun f => f.path)
  let isLocalMd := fun (p : String) => strEndsWith (strToLower p) ".md"
  let deletedPaths := (localFs.map Prod.fst).filter
    (fun p => isLocalMd p && !(githubPaths.contains p))
  let localFs1 := localFs.filter (fun e => !(isLocalMd e.1 && !(githubPaths.contains e.1)))
  let metadata1 := metadata.filter (fun m => !(deletedPaths.contains m.1))
  let pulled := githubFiles.foldl
    (fun (acc : LocalFs × List (String × String)) f =>
      (setA acc.1 f.path f.content, setA acc.2 f.path f.sha))
    (localFs1, metadata1)
  (pulled.1, pulled.2, tracked)

end TrackerSync

namespace FileSystemUtil

/-!
Model of createNewNote in src/utils/fileSystem.ts.
-/

/-- The filename probed at loop iteration k: the loop starts at untitled dot
md and, after each existing file, increments the counter and probes
untitled underscore counter dot md. -/
def noteName : Nat → String
  | 0 => "untitled.md"
  | n + 1 => "untitled_" ++ Nat.repr (n + 1) ++ ".md"

/-- The probe loop of createNewNote, with fuel making the recursion
explicit: returns the first counter whose filename has no existing file. -/
def findFilename (paths : List String) : Nat → Nat → Option Nat
  | 0, _ => none
  | fuel + 1, counter =>
      if paths.contains (noteName counter) then findFilename paths fuel (counter + 1)
      else some counter

/-- Source: the initial content written to a new note. -/
def initialContent : String := "# New Note\n\nStart writing here...\n"

/-- Source: createNewNote.  Probes untitled names in order, writes the
initial content to the first free path, then attempts to sync the new file
with commitFile; a sync failure is caught and the note is kept locally.
Returns the counter, filename, new local filesystem and new remote-facing
state.  The fuel bound one past the number of existing files is enough for
the model whenever the probe terminates. -/
def createNewNote (token : Option String) (repoDir : String)
    (gh : GithubSync.GhState) (localFs : LocalFs) :
    Option (Nat × String × LocalFs × GithubSync.GhState) :=
  match findFilename (localFs.map Prod.fst) (localFs.length + 1) 0 with
  | none => none
  | some k =>
      let filename := noteName k
      let filePath := repoDir ++ "/" ++ filename
      let localFs' := setA localFs filename initialContent
      let gh' :=
        match GithubSync.commitFile token gh filePath initialContent none none with
        | .ok (g, _) => g
        | .error _ => gh
      some (k, filename, localFs', gh')

end FileSystemUtil

/-! ## Association list lemmas -/

section AssocLemmas

variable {α : Type}

theorem lookupA_nil (p : String) : lookupA ([] : List (String × α)) p = none := rfl

theorem lookupA_cons (a : String × α) (l : List (String × α)) (p : String) :
    lookupA (a :: l) p = if a.1 = p then some a.2 else lookupA l p := by
  by_cases h : a.1 = p
  · simp [lookupA, List.find?, h]
  · simp only [lookupA, List.find?]
    rw [show ((a.1 == p) = false) from beq_eq_false_iff_ne.mpr h]
    simp [h]

theorem lookupA_eraseA_self (l : List (String × α)) (p : String) :
    lookupA (eraseA l p) p = none := by
  induction l with
  | nil => rfl
  | cons a t ih =>
      by_cases h : a.1 = p
      · simpa [eraseA, List.filter, h] using ih
      · have hb : (a.1 != p) = true := by
          simp [bne_iff_ne, h]
        simp only [eraseA, List.filter, hb]
        rw [lookupA_cons]
        simpa [h, eraseA] using ih

theorem lookupA_eraseA_ne (l : List (String × α)) (p q : String) (h : q ≠ p) :
    lookupA (eraseA l p) q = lookupA l q := by
  induction l with
  | nil => rfl
  | cons a t ih =>
      by_cases ha : a.1 = p
      · have hb : (a.1 != p) = false := by simp [bne, ha]
        simp only [eraseA, List.filter, hb]
        rw [lookupA_cons]
        have : a.1 ≠ q := by rw [ha]; exact fun e => h e.symm
        simpa [this, eraseA] using ih
      · have hb : (a.1 != p) = true := by simp [bne_iff_ne, ha]
        simp only [eraseA, List.filter, hb]
        rw [lookupA_cons, lookupA_cons]
        by_cases hq : a.1 = q
        · simp [hq]
        · simpa [hq, eraseA] using ih

theorem lookupA_setA_self (l : List (String × α)) (p : String) (v : α) :
    lookupA (setA l p v) p = some v := by
  rw [setA, lookupA_cons]; simp

theorem lookupA_setA_ne (l : List (String × α)) (p q : String) (v : α) (h : q ≠ p) :
    lookupA (setA l p v) q = lookupA l q := by
  rw [setA, lookupA_cons]
  simp only [show p ≠ q from fun e => h e.symm, if_false]
  exact lookupA_eraseA_ne l p q h

theorem eraseA_of_lookupA_none (l : List (String × α)) (p : String)
    (h : lookupA l p = none) : eraseA l p = l := by
  induction l with
  | nil => rfl
  | cons a t ih =>
      rw [lookupA_cons] at h
      by_cases ha : a.1 = p
      · simp [ha] at h
      · have hb : (a.1 != p) = true := by simp [bne_iff_ne, ha]
        simp only [eraseA, List.filter, hb]
        simp only [ha, if_false] at h
        rw [show (List.filter (fun e => e.1 != p) t) = eraseA t p from rfl, ih h]

theorem keys_eraseA (l : List (String × α)) (p : String) :
    (eraseA l p).map Prod.fst = (l.map Prod.fst).filter (fun q => q != p) := by
  induction l with
  | nil => rfl
  | cons a t ih =>
      by_cases ha : a.1 = p
      · have hb : (a.1 != p) = false := by simp [bne, ha]
        simp only [eraseA, List.filter, List.map, hb] at *
        simpa [hb] using ih
      · have hb : (a.1 != p) = true := by simp [bne_iff_ne, ha]
        simp only [eraseA, List.filter, List.map, hb] at *
        simpa [hb] using ih

theorem keysNodup_eraseA (l : List (String × α)) (p : String)
    (h : keysNodup l) : keysNodup (eraseA l p) := by
  rw [keysNodup, keys_eraseA]
  exact List.Nodup.filter _ h

theorem keysNodup_setA (l : List (String × α)) (p : String) (v : α)
    (h : keysNodup l) : keysNodup (setA l p v) := by
  rw [keysNodup, setA, List.map_cons, List.nodup_cons]
  refine ⟨?_, keysNodup_eraseA l p h⟩
  rw [keys_eraseA]
  intro hmem
  have := List.of_mem_filter hmem
  simp [bne_iff_ne] at this

theorem lookupA_of_mem (l : List (String × α)) (p : String) (v : α)
    (hnd : keysNodup l) (hmem : (p, v) ∈ l) : lookupA l p = some v := by
  induction l with
  | nil => simp at hmem
  | cons a t ih =>
      rw [keysNodup, List.map_cons, List.nodup_cons] at hnd
      rw [lookupA_cons]
      rcases List.mem_cons.mp hmem with h | h
      · simp [← h]
      · have hp : p ∈ t.map Prod.fst := List.mem_map.mpr ⟨(p, v), h, rfl⟩
        have ha : a.1 ≠ p := fun e => hnd.1 (e ▸ hp)
        simp only [ha, if_false]
        exact ih hnd.2 h

theorem mem_of_lookupA (l : List (String × α)) (p : String) (v : α)
    (h : lookupA l p = some v) : (p, v) ∈ l := by
  induction l with
  | nil => simp [lookupA] at h
  | cons a t ih =>
      rw [lookupA_cons] at h
      by_cases ha : a.1 = p
      · simp only [ha, if_true] at h
        have hv : a.2 = v := Option.some_inj.mp h
        have : (p, v) = a := by
          rw [← ha, ← hv]
        rw [this]
        exact List.mem_cons_self a t
      · simp only [ha, if_false] at h
        exact List.mem_cons_of_mem a (ih h)

theorem lookupA_none_of_not_mem_keys (l : List (String × α)) (p : String)
    (h : p ∉ l.map Prod.fst) : lookupA l p = none := by
  induction l with
  | nil => rfl
  | cons a t ih =>
      rw [List.map_cons] at h
      rw [lookupA_cons]
      have ha : a.1 ≠ p := fun e => h (e ▸ List.mem_cons_self _ _)
      simp only [ha, if_false]
      exact ih (fun hm => h (List.mem_cons_of_mem _ hm))

end AssocLemmas

/-! ## Support lemmas for folds and filters -/

theorem contains_eq_true_iff_mem {α : Type} [BEq α] [LawfulBEq α]
    (l : List α) (a : α) : l.contains a = true ↔ a ∈ l := by
  rw [List.contains_iff_exists_mem_beq]
  constructor
  · rintro ⟨b, hb, hba⟩
    rw [eq_of_beq hba]
    exact hb
  · intro h
    exact ⟨a, h, by simp⟩

theorem lookupA_filter_key {α : Type} (f : String → Bool) (l : List (String × α))
    (p : String) (h : f p = false) :
    lookupA (l.filter (fun e => f e.1)) p = none := by
  induction l with
  | nil => rfl
  | cons a t ih =>
      cases hfa : f a.1 with
      | false => simpa [List.filter, hfa] using ih
      | true =>
          have hne : a.1 ≠ p := by
            intro e
            rw [e, h] at hfa
            exact Bool.noConfusion hfa
          simp only [List.filter, hfa]
          rw [lookupA_cons]
          simpa [hne] using ih

theorem foldl_pair_fst {α β γ : Type} (g : γ → String) (h : γ → α)
    (g' : γ → String) (h' : γ → β) :
    ∀ (files : List γ) (acc : List (String × α) × List (String × β)),
    (files.foldl (fun a f => (setA a.1 (g f) (h f), setA a.2 (g' f) (h' f))) acc).1 =
      files.foldl (fun a f => setA a (g f) (h f)) acc.1 := by
  intro files
  induction files with
  | nil => intro acc; rfl
  | cons x t ih => intro acc; exact ih _

theorem foldl_pair_snd {α β γ : Type} (g : γ → String) (h : γ → α)
    (g' : γ → String) (h' : γ → β) :
    ∀ (files : List γ) (acc : List (String × α) × List (String × β)),
    (files.foldl (fun a f => (setA a.1 (g f) (h f), setA a.2 (g' f) (h' f))) acc).2 =
      files.foldl (fun a f => setA a (g' f) (h' f)) acc.2 := by
  intro files
  induction files with
  | nil => intro acc; rfl
  | cons x t ih => intro acc; exact ih _

theorem lookupA_foldl_setA {α γ : Type} (g : γ → String) (h : γ → α) (p : String) :
    ∀ (files : List γ) (acc : List (String × α)),
    (∀ f ∈ files, g f ≠ p) →
    lookupA (files.foldl (fun a f => setA a (g f) (h f)) acc) p = lookupA acc p := by
  intro files
  induction files with
  | nil => intro acc _; rfl
  | cons x t ih =>
      intro acc hne
      have hx : g x ≠ p := hne x (List.mem_cons_self _ _)
      rw [List.foldl_cons, ih _ (fun f hf => hne f (List.mem_cons_of_mem _ hf)),
        lookupA_setA_ne _ _ _ _ (fun e => hx e.symm)]

/-! ## Claim C1: local files absent from the remote listing during full
reconciliation -/

/-- C1 counterexample.  The claim states that a local Markdown file absent
from the remote listing with no TrackedFile entry is left alone by full
reconciliation.  In the code, syncFromGitHub deletes every local Markdown
file absent from the remote listing without consulting any tracking state:
here the untracked local file new.md is deleted by a reconciliation against
an empty remote. -/
theorem claim_C1_counterexample :
    lookupA ([("new.md", "hello")] : LocalFs) "new.md" = some "hello" ∧
    lookupA ([] : FileTracker.Tracked) "new.md" = none ∧
    (TrackerSync.syncFromGitHub [] [("new.md", "hello")] [] []).1 = [] := by
  decide

/-- C1, amended: during full reconciliation (syncFromGitHub), every local
Markdown file whose path is absent from the remote listing is deleted and
its fileMetadata entry removed, regardless of whether a TrackedFile entry
exists for it; the lastCommitFiles tracking map is left untouched. -/
theorem claim_C1 (items : List TrackerSync.GitHubItem) (localFs : LocalFs)
    (metadata : List (String × String)) (tracked : FileTracker.Tracked)
    (p c : String)
    (hmem : (p, c) ∈ localFs)
    (hmd : strEndsWith (strToLower p) ".md" = true)
    (habsent : ∀ it ∈ items, it.path ≠ p) :
    lookupA (TrackerSync.syncFromGitHub items localFs metadata tracked).1 p = none ∧
    lookupA (TrackerSync.syncFromGitHub items localFs metadata tracked).2.1 p = none ∧
    (TrackerSync.syncFromGitHub items localFs metadata tracked).2.2 = tracked := by
  unfold TrackerSync.syncFromGitHub
  simp only [foldl_pair_fst, foldl_pair_snd]
  have hnotgh : ∀ f ∈ items.filter (fun f => strEndsWith (strToLower f.path) ".md"),
      f.path ≠ p := fun f hf => habsent f (List.mem_of_mem_filter hf)
  have hncontains :
      ((items.filter (fun f => strEndsWith (strToLower f.path) ".md")).map
        (fun f => f.path)).contains p = false := by
    rw [Bool.eq_false_iff]
    intro hc
    obtain ⟨f, hf, hfp⟩ := List.mem_map.mp ((contains_eq_true_iff_mem _ _).mp hc)
    exact hnotgh f hf hfp
  refine ⟨?_, ?_, by trivial⟩
  · rw [lookupA_foldl_setA _ _ _ _ _ hnotgh]
    apply lookupA_filter_key
      (fun q => !(strEndsWith (strToLower q) ".md" &&
        !(((items.filter (fun f => strEndsWith (strToLower f.path) ".md")).map
          (fun f => f.path)).contains q)))
    rw [hmd, hncontains]
    rfl
  · rw [lookupA_foldl_setA _ _ _ _ _ hnotgh]
    apply lookupA_filter_key
      (fun q => !(((localFs.map Prod.fst).filter
        (fun q' => strEndsWith (strToLower q') ".md" &&
          !(((items.filter (fun f => strEndsWith (strToLower f.path) ".md")).map
            (fun f => f.path)).contains q'))).contains q))
    have hpk : p ∈ localFs.map Prod.fst := List.mem_map.mpr ⟨(p, c), hmem, rfl⟩
    have hpred : (strEndsWith (strToLower p) ".md" &&
        !(((items.filter (fun f => strEndsWith (strToLower f.path) ".md")).map
          (fun f => f.path)).contains p)) = true := by
      rw [hmd, hncontains]; rfl
    have hdel : p ∈ (localFs.map Prod.fst).filter
        (fun q' => strEndsWith (strToLower q') ".md" &&
          !(((items.filter (fun f => strEndsWith (strToLower f.path) ".md")).map
            (fun f => f.path)).contains q')) :=
      List.mem_filter.mpr ⟨hpk, hpred⟩
    have : (((localFs.map Prod.fst).filter
        (fun q' => strEndsWith (strToLower q') ".md" &&
          !(((items.filter (fun f => strEndsWith (strToLower f.path) ".md")).map
            (fun f => f.path)).contains q'))).contains p) = true :=
      (contains_eq_true_iff_mem _ _).mpr hdel
    rw [this]
    rfl

/-- Witness for C1 on a concrete input: a tracked local file c.md missing
from the remote listing is deleted, its metadata entry removed, the
tracking map untouched. -/
theorem claim_C1_witness :
    (("c.md", "body") ∈ ([("c.md", "body")] : LocalFs)) ∧
    (strEndsWith (strToLower "c.md") ".md" = true) ∧
    (lookupA (TrackerSync.syncFromGitHub [] [("c.md", "body")] [("c.md", "h")]
      [("c.md", { sha := "h", content := "body" })]).1 "c.md" = none ∧
     lookupA (TrackerSync.syncFromGitHub [] [("c.md", "body")] [("c.md", "h")]
      [("c.md", { sha := "h", content := "body" })]).2.1 "c.md" = none ∧
     (TrackerSync.syncFromGitHub [] [("c.md", "body")] [("c.md", "h")]
      [("c.md", { sha := "h", content := "body" })]).2.2 =
        [("c.md", { sha := "h", content := "body" })]) :=
  ⟨by decide, by decide,
   claim_C1 [] [("c.md", "body")] [("c.md", "h")]
     [("c.md", { sha := "h", content := "body" })] "c.md" "body"
     (by decide) (by decide) (by intro it hit; simp at hit)⟩

/-! ## Claim C7: rename as delete-then-create and the surfacing of a create
failure after a successful delete -/

/-- C7 counterexample.  The claim states that when the create step of a
rename fails after the delete succeeded, the failure is surfaced as a
distinct partial-rename error.  In the code there is no such error type:
the run where the delete succeeded and the create failed (first run, ops
show the successful delete) returns exactly the same caller-visible result
as the run where even the delete failed (second run), while the two runs
leave different remote states.  The caller cannot distinguish the
partial-rename situation at all, let alone by a distinct error. -/
theorem claim_C7_counterexample :
    (FileTracker.commit [("b.md", "NEW")]
      [{ path := "b.md", status := FileTracker.StatusKind.renamed,
         oldPath := some "a.md", sha := some "sha-A" }]
      [("a.md", { sha := "sha-A", content := "A" })]
      [("a.md", { sha := "sha-A", content := "A" }),
       ("b.md", { sha := "sha-B", content := "B" })]).1 =
    (FileTracker.commit [("b.md", "NEW")]
      [{ path := "b.md", status := FileTracker.StatusKind.renamed,
         oldPath := some "a.md", sha := some "WRONG" }]
      [("a.md", { sha := "sha-A", content := "A" })]
      [("a.md", { sha := "sha-A", content := "A" }),
       ("b.md", { sha := "sha-B", content := "B" })]).1 ∧
    (FileTracker.commit [("b.md", "NEW")]
      [{ path := "b.md", status := FileTracker.StatusKind.renamed,
         oldPath := some "a.md", sha := some "sha-A" }]
      [("a.md", { sha := "sha-A", content := "A" })]
      [("a.md", { sha := "sha-A", content := "A" }),
       ("b.md", { sha := "sha-B", content := "B" })]).2.2.1 ≠
    (FileTracker.commit [("b.md", "NEW")]
      [{ path := "b.md", status := FileTracker.StatusKind.renamed,
         oldPath := some "a.md", sha := some "WRONG" }]
      [("a.md", { sha := "sha-A", content := "A" })]
      [("a.md", { sha := "sha-A", content := "A" }),
       ("b.md", { sha := "sha-B", content := "B" })]).2.2.1 ∧
    (FileTracker.commit [("b.md", "NEW")]
      [{ path := "b.md", status := FileTracker.StatusKind.renamed,
         oldPath := some "a.md", sha := some "sha-A" }]
      [("a.md", { sha := "sha-A", content := "A" })]
      [("a.md", { sha := "sha-A", content := "A" }),
       ("b.md", { sha := "sha-B", content := "B" })]).2.2.2 =
      [RemoteOp.del "a.md" (some "sha-A") true, RemoteOp.put "b.md" none false] := by
  decide

/-- C7, amended: rename is performed as delete-then-create, but a create
failure after a successful delete is surfaced to the caller as a generic
failure result (success false with a plain error message string and no
changed files), not as a distinct partial-rename error; the old tracked
entry has already been dropped and the remote is left with the old path
deleted and the new path not created by this run. -/
theorem claim_C7 (localFs : LocalFs) (tracked : FileTracker.Tracked)
    (remote : RemoteState) (ch : FileTracker.FileStatusEntry)
    (op content : String) (r1 : RemoteState)
    (hst : ch.status = FileTracker.StatusKind.renamed)
    (hop : ch.oldPath = some op)
    (hread : lookupA localFs ch.path = some content)
    (hdel : remoteDelete remote op ch.sha = some r1)
    (hput : remotePut r1 ch.path content none = none) :
    FileTracker.commit localFs [ch] tracked remote =
      ({ success := false,
         error := some ("Failed to rename file from " ++ op ++ " to " ++ ch.path),
         changedFiles := [] },
       eraseA tracked op, r1,
       [RemoteOp.del op ch.sha true, RemoteOp.put ch.path none false]) := by
  simp only [FileTracker.commit, FileTracker.commitGo, hst, hop, hdel, hread, hput,
    List.nil_append]

/-- Witness for C7 at the concrete partial-rename input. -/
theorem claim_C7_witness :
    (lookupA ([("b.md", "NEW")] : LocalFs) "b.md" = some "NEW") ∧
    (remoteDelete
      [("a.md", { sha := "sha-A", content := "A" }),
       ("b.md", { sha := "sha-B", content := "B" })] "a.md" (some "sha-A") =
      some [("b.md", { sha := "sha-B", content := "B" })]) ∧
    (remotePut [("b.md", { sha := "sha-B", content := "B" })] "b.md" "NEW" none = none) ∧
    (FileTracker.commit [("b.md", "NEW")]
      [{ path := "b.md", status := FileTracker.StatusKind.renamed,
         oldPath := some "a.md", sha := some "sha-A" }]
      [("a.md", { sha := "sha-A", content := "A" })]
      [("a.md", { sha := "sha-A", content := "A" }),
       ("b.md", { sha := "sha-B", content := "B" })] =
      ({ success := false,
         error := some ("Failed to rename file from " ++ "a.md" ++ " to " ++ "b.md"),
         changedFiles := [] },
       eraseA [("a.md", { sha := "sha-A", content := "A" })] "a.md",
       [("b.md", { sha := "sha-B", content := "B" })],
       [RemoteOp.del "a.md" (some "sha-A") true, RemoteOp.put "b.md" none false])) :=
  ⟨by decide, by decide, by decide,
   claim_C7 [("b.md", "NEW")] [("a.md", { sha := "sha-A", content := "A" })]
     [("a.md", { sha := "sha-A", content := "A" }),
      ("b.md", { sha := "sha-B", content := "B" })]
     { path := "b.md", status := FileTracker.StatusKind.renamed,
       oldPath := some "a.md", sha := some "sha-A" }
     "a.md" "NEW" [("b.md", { sha := "sha-B", content := "B" })]
     rfl rfl (by decide) (by decide) (by decide)⟩

/-! ## Claim C10: createNewNote never overwrites -/

/-- The probe loop of createNewNote finds the first free name: every
earlier probe hit an existing file and the returned name is free. -/
theorem findFilename_spec (paths : List String) :
    ∀ (fuel c k : Nat), FileSystemUtil.findFilename paths fuel c = some k →
      c ≤ k ∧ paths.contains (FileSystemUtil.noteName k) = false ∧
      (∀ j, c ≤ j → j < k → paths.contains (FileSystemUtil.noteName j) = true) := by
  intro fuel
  induction fuel with
  | zero => intro c k h; exact absurd h (by simp [FileSystemUtil.findFilename])
  | succ n ih =>
      intro c k h
      unfold FileSystemUtil.findFilename at h
      cases hc : paths.contains (FileSystemUtil.noteName c) with
      | false =>
          rw [hc] at h
          simp only [Bool.false_eq_true, if_false] at h
          obtain rfl : c = k := Option.some_inj.mp h
          exact ⟨Nat.le_refl c, hc, fun j hj hjk => absurd (Nat.lt_of_le_of_lt hj hjk)
            (Nat.lt_irrefl c)⟩
      | true =>
          rw [hc] at h
          simp only [if_true] at h
          obtain ⟨hle, hfree, hhit⟩ := ih (c + 1) k h
          refine ⟨Nat.le_trans (Nat.le_succ c) hle, hfree, fun j hj hjk => ?_⟩
          rcases Nat.eq_or_lt_of_le hj with rfl | hlt
          · exact hc
          · exact hhit j hlt hjk

/-- C10: createNewNote never overwrites an existing file.  Whenever the
probe loop returns, the chosen name is the first untitled name with no
existing file (every earlier probe in the order untitled, untitled_1,
untitled_2 and so on hit an existing file), the initial content is written
only to that fresh path, and the local note exists in the resulting
filesystem for every token and remote state, in particular when the remote
commit attempt fails. -/
theorem claim_C10 (token : Option String) (repoDir : String)
    (gh : GithubSync.GhState) (localFs : LocalFs) (k : Nat) (fn : String)
    (fs' : LocalFs) (gh' : GithubSync.GhState)
    (h : FileSystemUtil.createNewNote token repoDir gh localFs =
      some (k, fn, fs', gh')) :
    fn = FileSystemUtil.noteName k ∧
    fn ∉ localFs.map Prod.fst ∧
    (∀ j, j < k → FileSystemUtil.noteName j ∈ localFs.map Prod.fst) ∧
    fs' = setA localFs fn FileSystemUtil.initialContent ∧
    lookupA fs' fn = some FileSystemUtil.initialContent := by
  unfold FileSystemUtil.createNewNote at h
  cases hf : FileSystemUtil.findFilename (localFs.map Prod.fst) (localFs.length + 1) 0 with
  | none => rw [hf] at h; exact absurd h (by simp)
  | some k0 =>
      rw [hf] at h
      simp only [Option.some_inj] at h
      obtain ⟨rfl, rfl, rfl, rfl⟩ : k0 = k ∧ FileSystemUtil.noteName k0 = fn ∧
          setA localFs (FileSystemUtil.noteName k0) FileSystemUtil.initialContent = fs' ∧
          (match GithubSync.commitFile token gh
              (repoDir ++ "/" ++ FileSystemUtil.noteName k0)
              FileSystemUtil.initialContent none none with
            | .ok (g, _) => g
            | .error _ => gh) = gh' := by
        have h1 := congrArg Prod.fst h
        have h2 := congrArg (fun x => x.2.1) h
        have h3 := congrArg (fun x => x.2.2.1) h
        have h4 := congrArg (fun x => x.2.2.2) h
        exact ⟨h1, h2, h3, h4⟩
      obtain ⟨_, hfree, hhit⟩ := findFilename_spec (localFs.map Prod.fst) _ _ _ hf
      refine ⟨rfl, ?_, ?_, rfl, lookupA_setA_self _ _ _⟩
      · intro hmem
        rw [(contains_eq_true_iff_mem _ _).mpr hmem] at hfree
        exact Bool.noConfusion hfree
      · intro j hj
        exact (contains_eq_true_iff_mem _ _).mp (hhit j (Nat.zero_le j) hj)

/-- Witness for C10: with one existing note named untitled dot md, the new
note is created at untitled underscore one and survives a failing remote
commit (no token). -/
theorem claim_C10_witness :
    (FileSystemUtil.createNewNote none "repos/notes" { remote := [], metadata := [] }
      [("untitled.md", "x")] =
      some (1, "untitled_1.md",
        setA [("untitled.md", "x")] "untitled_1.md" FileSystemUtil.initialContent,
        { remote := [], metadata := [] })) ∧
    "untitled_1.md" ∉ ([("untitled.md", "x")] : LocalFs).map Prod.fst ∧
    lookupA (setA [("untitled.md", "x")] "untitled_1.md" FileSystemUtil.initialContent)
      "untitled_1.md" = some FileSystemUtil.initialContent := by
  have h : FileSystemUtil.createNewNote none "repos/notes" { remote := [], metadata := [] }
      [("untitled.md", "x")] =
      some (1, "untitled_1.md",
        setA [("untitled.md", "x")] "untitled_1.md" FileSystemUtil.initialContent,
        { remote := [], metadata := [] }) := by decide
  have hc := claim_C10 none "repos/notes" { remote := [], metadata := [] }
    [("untitled.md", "x")] 1 "untitled_1.md"
    (setA [("untitled.md", "x")] "untitled_1.md" FileSystemUtil.initialContent)
    { remote := [], metadata := [] } h
  exact ⟨h, hc.2.1, hc.2.2.2.2⟩

/-! ## Claim C8: commitFile always PUTs with the sha of its own immediately
preceding GET -/

/-- C8: for every commitFile invocation (no rename arguments) on a path
that exists remotely, the PUT is sent with exactly the sha returned by the
GET performed in the same invocation; no tracked or cached hash enters the
call at all (commitFile takes none as input); the write is accepted, never
rejected by the optimistic-concurrency check, and the remote content at the
path afterwards is the submitted content, overwriting whatever another
writer had put there. -/
theorem claim_C8 (token : String) (st : GithubSync.GhState)
    (fullPath content rel : String) (rf : RemoteFile)
    (hrel : GithubSync.getRelativePath fullPath = some rel)
    (hexists : remoteGet st.remote rel = some rf) :
    GithubSync.commitFile (some token) st fullPath content none none =
      Except.ok
        ({ remote := setA st.remote rel { sha := shaOf content, content := content },
           metadata := setA (setA st.metadata fullPath rf.sha) fullPath (shaOf content) },
         { fullPath := fullPath, relPath := rel, content := content,
           shaSent := some rf.sha }) ∧
    remoteGet (setA st.remote rel { sha := shaOf content, content := content }) rel =
      some { sha := shaOf content, content := content } := by
  constructor
  · have hl : lookupA st.remote rel = some rf := hexists
    simp only [GithubSync.commitFile, hrel]
    simp [remotePut, remoteGet, hl]
  · exact lookupA_setA_self _ _ _

/-- Witness for C8: a remote file changed by another device (sha h1) is
overwritten without any conflict; the PUT carries h1, the fresh GET sha. -/
theorem claim_C8_witness :
    (GithubSync.getRelativePath "repos/notes/a.md" = some "a.md") ∧
    (remoteGet ([("a.md", { sha := "h1", content := "R" })] : RemoteState) "a.md" =
      some { sha := "h1", content := "R" }) ∧
    (GithubSync.commitFile (some "tok")
        { remote := [("a.md", { sha := "h1", content := "R" })], metadata := [] }
        "repos/notes/a.md" "L" none none =
      Except.ok
        ({ remote := setA [("a.md", { sha := "h1", content := "R" })] "a.md"
             { sha := shaOf "L", content := "L" },
           metadata := setA (setA [] "repos/notes/a.md" "h1") "repos/notes/a.md" (shaOf "L") },
         { fullPath := "repos/notes/a.md", relPath := "a.md", content := "L",
           shaSent := some "h1" })) :=
  ⟨by decide, by decide,
   (claim_C8 "tok" { remote := [("a.md", { sha := "h1", content := "R" })], metadata := [] }
     "repos/notes/a.md" "L" "a.md" { sha := "h1", content := "R" }
     (by decide) (by decide)).1⟩

/-! ## Claim C5: a failed debounce-fired write leaves the pending state
cleared and the local file untouched -/

/-- C5: when the commitFile attempt of a debounce-fired commit fails, the
pending entry for the path was already cleared before the attempt and is
not re-queued, the error is caught (commitPendingChange returns a state,
nothing propagates), and the local files, the recorded successful commits
and the remote-facing state are all unchanged. -/
theorem claim_C5 (token : Option String) (s : GithubSync.SyncState) (p : String)
    (pc : GithubSync.PendingCommit) (e : String)
    (hpend : GithubSync.lookupPending s p = some pc)
    (hfail : GithubSync.commitFile token s.gh p pc.content none none = Except.error e) :
    GithubSync.commitPendingChange token s p = { s with pending := eraseA s.pending p } ∧
    GithubSync.lookupPending (GithubSync.commitPendingChange token s p) p = none ∧
    (GithubSync.commitPendingChange token s p).localFiles = s.localFiles ∧
    (GithubSync.commitPendingChange token s p).commits = s.commits ∧
    (GithubSync.commitPendingChange token s p).gh = s.gh := by
  have hmain : GithubSync.commitPendingChange token s p =
      { s with pending := eraseA s.pending p } := by
    simp only [GithubSync.commitPendingChange, hpend, hfail]
  refine ⟨hmain, ?_, ?_, ?_, ?_⟩
  · rw [hmain]
    exact lookupA_eraseA_self _ _
  · rw [hmain]
  · rw [hmain]
  · rw [hmain]

/-- Witness for C5: a pending commit whose path cannot be parsed makes
commitFile fail; the pending entry stays cleared and the local files and
remote state are untouched. -/
theorem claim_C5_witness :
    (GithubSync.lookupPending
      { gh := { remote := [], metadata := [] }, localFiles := [("doc.md", "d")],
        pending := [("x.md", { timerId := 0, content := "c" })], cancelled := [],
        timers := [(0, "x.md")], nextTimer := 1, commits := [] } "x.md" =
      some { timerId := 0, content := "c" }) ∧
    (GithubSync.commitFile (some "tok") { remote := [], metadata := [] } "x.md" "c"
      none none = Except.error "Invalid file path format") ∧
    (GithubSync.commitPendingChange (some "tok")
      { gh := { remote := [], metadata := [] }, localFiles := [("doc.md", "d")],
        pending := [("x.md", { timerId := 0, content := "c" })], cancelled := [],
        timers := [(0, "x.md")], nextTimer := 1, commits := [] } "x.md").localFiles =
      [("doc.md", "d")] :=
  ⟨by decide, by decide,
   (claim_C5 (some "tok")
     { gh := { remote := [], metadata := [] }, localFiles := [("doc.md", "d")],
       pending := [("x.md", { timerId := 0, content := "c" })], cancelled := [],
       timers := [(0, "x.md")], nextTimer := 1, commits := [] } "x.md"
     { timerId := 0, content := "c" } "Invalid file path format"
     (by decide) (by decide)).2.2.1⟩

/-! ## Claim C2: the conflict prompt of syncFile -/

/-- C2 counterexample.  The claim states that on a both-sides-changed
conflict the resolver blocks until one of exactly three outcomes is chosen,
one of them defer, which abandons the attempt leaving both sides unchanged.
The prompt of syncFile offers exactly the two choices keep-local and
use-remote (the alert is not cancelable), and at this concrete conflict
neither available resolution leaves both sides unchanged: keeping local
rewrites the remote store, taking remote rewrites the local file.  No defer
outcome exists. -/
theorem claim_C2_counterexample :
    (¬ ((SyncManager.syncFile SyncManager.ConflictChoice.keepLocal
        [("a.md", "L")] [("a.md", { sha := "h0", content := "C" })]
        [("a.md", { sha := "h1", content := "R" })]
        { path := "a.md", status := FileTracker.StatusKind.modified,
          sha := some "h0" }).localFs = [("a.md", "L")] ∧
      (SyncManager.syncFile SyncManager.ConflictChoice.keepLocal
        [("a.md", "L")] [("a.md", { sha := "h0", content := "C" })]
        [("a.md", { sha := "h1", content := "R" })]
        { path := "a.md", status := FileTracker.StatusKind.modified,
          sha := some "h0" }).remote = [("a.md", { sha := "h1", content := "R" })])) ∧
    (¬ ((SyncManager.syncFile SyncManager.ConflictChoice.useGithub
        [("a.md", "L")] [("a.md", { sha := "h0", content := "C" })]
        [("a.md", { sha := "h1", content := "R" })]
        { path := "a.md", status := FileTracker.StatusKind.modified,
          sha := some "h0" }).localFs = [("a.md", "L")] ∧
      (SyncManager.syncFile SyncManager.ConflictChoice.useGithub
        [("a.md", "L")] [("a.md", { sha := "h0", content := "C" })]
        [("a.md", { sha := "h1", content := "R" })]
        { path := "a.md", status := FileTracker.StatusKind.modified,
          sha := some "h0" }).remote = [("a.md", { sha := "h1", content := "R" })])) ∧
    (SyncManager.syncFile SyncManager.ConflictChoice.keepLocal
        [("a.md", "L")] [("a.md", { sha := "h0", content := "C" })]
        [("a.md", { sha := "h1", content := "R" })]
        { path := "a.md", status := FileTracker.StatusKind.modified,
          sha := some "h0" }).prompted = true := by
  decide

/-- C2, amended: whenever syncFile finds the tracked hash differing from
the remote current hash and the local content differing from the cached
snapshot, it blocks on the conflict prompt and resolves it with one of
exactly two outcomes (the constructors of ConflictChoice): keep local
commits the local content using the remote current hash as the expected
base (one accepted PUT, local file untouched), take remote overwrites the
local file and tracking with the remote content and issues no remote write.
There is no defer outcome, and no remote write happens other than the one
dictated by the explicit choice. -/
theorem claim_C2 (localFs : LocalFs) (tracked : FileTracker.Tracked)
    (remote : RemoteState) (p lc : String) (md : FileTracker.TrackedFile)
    (gf : RemoteFile)
    (hmd : strEndsWith p ".md" = true)
    (hloc : lookupA localFs p = some lc)
    (htr : lookupA tracked p = some md)
    (hdiff : lc ≠ md.content)
    (hgf : remoteGet remote p = some gf)
    (hsha : md.sha ≠ gf.sha) :
    SyncManager.syncFile SyncManager.ConflictChoice.keepLocal localFs tracked remote
      { path := p, status := FileTracker.StatusKind.modified, sha := some md.sha } =
      { success := true, localFs := localFs,
        tracked := setA tracked p { sha := shaOf lc, content := lc },
        remote := setA remote p { sha := shaOf lc, content := lc },
        ops := [RemoteOp.put p (some gf.sha) true], prompted := true } ∧
    SyncManager.syncFile SyncManager.ConflictChoice.useGithub localFs tracked remote
      { path := p, status := FileTracker.StatusKind.modified, sha := some md.sha } =
      { success := true, localFs := setA localFs p gf.content,
        tracked := setA tracked p { sha := gf.sha, content := gf.content },
        remote := remote, ops := [], prompted := true } := by
  have hmemL : (p, lc) ∈ localFs := mem_of_lookupA _ _ _ hloc
  have hmemMd : (p, lc) ∈ FileTracker.mdFiles localFs :=
    List.mem_filter.mpr ⟨hmemL, hmd⟩
  have hentry :
      ({ path := p, status := FileTracker.StatusKind.modified, sha := some md.sha } :
        FileTracker.FileStatusEntry) ∈ FileTracker.status localFs tracked := by
    unfold FileTracker.status
    apply List.mem_append_left
    apply List.mem_filterMap.mpr
    refine ⟨(p, lc), hmemMd, ?_⟩
    simp only [htr, FileTracker.hasFileChanged]
    rw [if_pos (bne_iff_ne.mpr hdiff)]
  have hany : (FileTracker.status localFs tracked).any (fun c =>
      c.path == p && c.status == FileTracker.StatusKind.modified) = true :=
    List.any_eq_true.mpr ⟨_, hentry, by simp⟩
  have hshaif : ¬ (some md.sha = some gf.sha) := fun e => hsha (Option.some_inj.mp e)
  have hgl : lookupA remote p = some gf := hgf
  constructor
  · simp only [SyncManager.syncFile, hgf]
    rw [if_neg hshaif]
    simp only [hany, if_true]
    simp only [FileTracker.commit, FileTracker.commitGo, hloc, remotePut, remoteGet, hgl,
      if_pos, FileTracker.updateTrackedGo, List.nil_append]
  · simp only [SyncManager.syncFile, hgf]
    rw [if_neg hshaif]
    simp only [hany, if_true]
    simp only [FileTracker.initializeTracking, List.foldl_cons, List.foldl_nil,
      lookupA_setA_self, Bool.false_eq_true, if_false]

/-- Witness for C2 at the concrete conflict input. -/
theorem claim_C2_witness :
    (strEndsWith "a.md" ".md" = true) ∧
    (lookupA ([("a.md", "L")] : LocalFs) "a.md" = some "L") ∧
    (lookupA ([("a.md", { sha := "h0", content := "C" })] : FileTracker.Tracked)
      "a.md" = some { sha := "h0", content := "C" }) ∧
    (remoteGet [("a.md", { sha := "h1", content := "R" })] "a.md" =
      some { sha := "h1", content := "R" }) ∧
    (SyncManager.syncFile SyncManager.ConflictChoice.useGithub
      [("a.md", "L")] [("a.md", { sha := "h0", content := "C" })]
      [("a.md", { sha := "h1", content := "R" })]
      { path := "a.md", status := FileTracker.StatusKind.modified, sha := some "h0" } =
      { success := true, localFs := setA [("a.md", "L")] "a.md" "R",
        tracked := setA [("a.md", { sha := "h0", content := "C" })] "a.md"
          { sha := "h1", content := "R" },
        remote := [("a.md", { sha := "h1", content := "R" })],
        ops := [], prompted := true }) :=
  ⟨by decide, by decide, by decide, by decide,
   (claim_C2 [("a.md", "L")] [("a.md", { sha := "h0", content := "C" })]
     [("a.md", { sha := "h1", content := "R" })] "a.md" "L"
     { sha := "h0", content := "C" } { sha := "h1", content := "R" }
     (by decide) (by decide) (by decide) (by decide) (by decide) (by decide)).2⟩

/-! ## Status membership lemmas (shared by the change-detection claims) -/

theorem mem_status_added (localFs : LocalFs) (tracked : FileTracker.Tracked)
    (p c : String) (h1 : (p, c) ∈ FileTracker.mdFiles localFs)
    (h2 : lookupA tracked p = none) :
    ({ path := p, status := FileTracker.StatusKind.added } :
      FileTracker.FileStatusEntry) ∈ FileTracker.status localFs tracked := by
  unfold FileTracker.status
  apply List.mem_append_left
  apply List.mem_filterMap.mpr
  exact ⟨(p, c), h1, by simp [h2]⟩

theorem mem_status_modified (localFs : LocalFs) (tracked : FileTracker.Tracked)
    (p c : String) (md : FileTracker.TrackedFile)
    (h1 : (p, c) ∈ FileTracker.mdFiles localFs)
    (h2 : lookupA tracked p = some md) (h3 : c ≠ md.content) :
    ({ path := p, status := FileTracker.StatusKind.modified, sha := some md.sha } :
      FileTracker.FileStatusEntry) ∈ FileTracker.status localFs tracked := by
  unfold FileTracker.status
  apply List.mem_append_left
  apply List.mem_filterMap.mpr
  refine ⟨(p, c), h1, ?_⟩
  simp only [h2, FileTracker.hasFileChanged]
  rw [if_pos (bne_iff_ne.mpr h3)]

theorem mem_status_deleted (localFs : LocalFs) (tracked : FileTracker.Tracked)
    (p : String) (md : FileTracker.TrackedFile)
    (h1 : (p, md) ∈ tracked)
    (h2 : p ∉ (FileTracker.mdFiles localFs).map Prod.fst) :
    ({ path := p, status := FileTracker.StatusKind.deleted, sha := some md.sha } :
      FileTracker.FileStatusEntry) ∈ FileTracker.status localFs tracked := by
  unfold FileTracker.status
  apply List.mem_append_right
  apply List.mem_filterMap.mpr
  refine ⟨(p, md), h1, ?_⟩
  have hc : ¬ (((FileTracker.mdFiles localFs).map Prod.fst).contains p = true) := by
    intro hct
    exact h2 ((contains_eq_true_iff_mem _ _).mp hct)
  rw [if_neg hc]

theorem status_path_ne_of_unchanged (localFs : LocalFs)
    (tracked : FileTracker.Tracked) (p c : String) (md : FileTracker.TrackedFile)
    (hnd : keysNodup localFs)
    (h1 : (p, c) ∈ FileTracker.mdFiles localFs)
    (h2 : lookupA tracked p = some md) (h3 : c = md.content) :
    ∀ e ∈ FileTracker.status localFs tracked, e.path ≠ p := by
  intro e he hpe
  have hpcur : p ∈ (FileTracker.mdFiles localFs).map Prod.fst :=
    List.mem_map.mpr ⟨(p, c), h1, rfl⟩
  have hlocp : lookupA localFs p = some c :=
    lookupA_of_mem _ _ _ hnd (List.mem_of_mem_filter h1)
  unfold FileTracker.status at he
  rcases List.mem_append.mp he with hch | hdel
  · obtain ⟨⟨q, c'⟩, hq, hf⟩ := List.mem_filterMap.mp hch
    cases hlk : lookupA tracked q with
    | none =>
        rw [hlk] at hf
        simp only [Option.some_inj] at hf
        have hqp : q = p := by rw [← hpe, ← hf]
        rw [hqp, h2] at hlk
        exact Option.noConfusion hlk
    | some lk =>
        rw [hlk] at hf
        cases hch2 : FileTracker.hasFileChanged (some c') (some lk) with
        | true =>
            simp only [hch2, if_true, Option.some_inj] at hf
            have hqp : q = p := by rw [← hpe, ← hf]
            subst hqp
            have hc' : lookupA localFs q = some c' :=
              lookupA_of_mem _ _ _ hnd (List.mem_of_mem_filter hq)
            have hcc : c' = c := Option.some_inj.mp (hc' ▸ hlocp)
            have hlkmd : lk = md := Option.some_inj.mp (hlk ▸ h2)
            rw [hcc, hlkmd] at hch2
            simp only [FileTracker.hasFileChanged, bne_iff_ne] at hch2
            exact hch2 h3
        | false =>
            simp only [hch2, Bool.false_eq_true, if_false] at hf
            exact Option.noConfusion hf
  · obtain ⟨⟨q, md'⟩, hq, hf⟩ := List.mem_filterMap.mp hdel
    by_cases hct : ((FileTracker.mdFiles localFs).map Prod.fst).contains q = true
    · rw [if_pos hct] at hf
      exact Option.noConfusion hf
    · rw [if_neg hct] at hf
      simp only [Option.some_inj] at hf
      have hqp : q = p := by rw [← hpe, ← hf]
      subst hqp
      exact hct ((contains_eq_true_iff_mem _ _).mpr hpcur)

theorem status_kind_cases (localFs : LocalFs) (tracked : FileTracker.Tracked) :
    ∀ e ∈ FileTracker.status localFs tracked,
      e.status = FileTracker.StatusKind.added ∨
      e.status = FileTracker.StatusKind.modified ∨
      e.status = FileTracker.StatusKind.deleted := by
  intro e he
  unfold FileTracker.status at he
  rcases List.mem_append.mp he with hch | hdel
  · obtain ⟨⟨q, c'⟩, _, hf⟩ := List.mem_filterMap.mp hch
    cases hlk : lookupA tracked q with
    | none =>
        rw [hlk] at hf
        simp only [Option.some_inj] at hf
        left
        rw [← hf]
    | some lk =>
        rw [hlk] at hf
        cases hch2 : FileTracker.hasFileChanged (some c') (some lk) with
        | true =>
            simp only [hch2, if_true, Option.some_inj] at hf
            right; left
            rw [← hf]
        | false =>
            simp only [hch2, Bool.false_eq_true, if_false] at hf
            exact Option.noConfusion hf
  · obtain ⟨⟨q, md'⟩, _, hf⟩ := List.mem_filterMap.mp hdel
    by_cases hct : ((FileTracker.mdFiles localFs).map Prod.fst).contains q = true
    · rw [if_pos hct] at hf
      exact Option.noConfusion hf
    · rw [if_neg hct] at hf
      simp only [Option.some_inj] at hf
      right; right
      rw [← hf]

/-! ## Claim C6: the change detector emits exactly the right entries -/

/-- C6: for every Markdown file visited by the walk, status emits added
when no tracked entry exists and modified when the content differs byte for
byte from the cached content; it emits deleted for every tracked path
absent from the walk; and a path present on both sides with content equal
to the cached snapshot gets no entry at all. -/
theorem claim_C6 (localFs : LocalFs) (tracked : FileTracker.Tracked) :
    (∀ p c, (p, c) ∈ FileTracker.mdFiles localFs → lookupA tracked p = none →
      ({ path := p, status := FileTracker.StatusKind.added } :
        FileTracker.FileStatusEntry) ∈ FileTracker.status localFs tracked) ∧
    (∀ p c md, (p, c) ∈ FileTracker.mdFiles localFs →
      lookupA tracked p = some md → c ≠ md.content →
      ({ path := p, status := FileTracker.StatusKind.modified, sha := some md.sha } :
        FileTracker.FileStatusEntry) ∈ FileTracker.status localFs tracked) ∧
    (∀ p md, (p, md) ∈ tracked → p ∉ (FileTracker.mdFiles localFs).map Prod.fst →
      ({ path := p, status := FileTracker.StatusKind.deleted, sha := some md.sha } :
        FileTracker.FileStatusEntry) ∈ FileTracker.status localFs tracked) ∧
    (keysNodup localFs → ∀ p c md, (p, c) ∈ FileTracker.mdFiles localFs →
      lookupA tracked p = some md → c = md.content →
      ∀ e ∈ FileTracker.status localFs tracked, e.path ≠ p) :=
  ⟨fun p c h1 h2 => mem_status_added localFs tracked p c h1 h2,
   fun p c md h1 h2 h3 => mem_status_modified localFs tracked p c md h1 h2 h3,
   fun p md h1 h2 => mem_status_deleted localFs tracked p md h1 h2,
   fun hnd p c md h1 h2 h3 => status_path_ne_of_unchanged localFs tracked p c md hnd h1 h2 h3⟩

/-- Witness for C6 at a concrete state: a new file, a modified file, an
unchanged file and a deleted file. -/
theorem claim_C6_witness :
    (("new.md", "N") ∈ FileTracker.mdFiles
      [("new.md", "N"), ("mod.md", "M2"), ("same.md", "S")]) ∧
    (lookupA ([("mod.md", { sha := "h1", content := "M1" }),
       ("same.md", { sha := "h2", content := "S" }),
       ("gone.md", { sha := "h3", content := "G" })] : FileTracker.Tracked)
      "new.md" = none) ∧
    (({ path := "new.md", status := FileTracker.StatusKind.added } :
        FileTracker.FileStatusEntry) ∈ FileTracker.status
        [("new.md", "N"), ("mod.md", "M2"), ("same.md", "S")]
        [("mod.md", { sha := "h1", content := "M1" }),
         ("same.md", { sha := "h2", content := "S" }),
         ("gone.md", { sha := "h3", content := "G" })]) ∧
    (∀ e ∈ FileTracker.status
        [("new.md", "N"), ("mod.md", "M2"), ("same.md", "S")]
        [("mod.md", { sha := "h1", content := "M1" }),
         ("same.md", { sha := "h2", content := "S" }),
         ("gone.md", { sha := "h3", content := "G" })], e.path ≠ "same.md") := by
  refine ⟨by decide, by decide, ?_, ?_⟩
  · exact (claim_C6 [("new.md", "N"), ("mod.md", "M2"), ("same.md", "S")]
      [("mod.md", { sha := "h1", content := "M1" }),
       ("same.md", { sha := "h2", content := "S" }),
       ("gone.md", { sha := "h3", content := "G" })]).1 "new.md" "N"
      (by decide) (by decide)
  · exact (claim_C6 [("new.md", "N"), ("mod.md", "M2"), ("same.md", "S")]
      [("mod.md", { sha := "h1", content := "M1" }),
       ("same.md", { sha := "h2", content := "S" }),
       ("gone.md", { sha := "h3", content := "G" })]).2.2.2
      (by unfold keysNodup; decide)
      "same.md" "S" { sha := "h2", content := "S" } (by decide) (by decide) (by decide)

/-! ## Claim C9: the renamed kind is never produced -/

/-- C9: every entry the change detector emits has kind added, modified or
deleted; the renamed kind of the FileStatus type is never produced, and a
local rename shows up as an added entry for the new path together with a
deleted entry for the old path. -/
theorem claim_C9 (localFs : LocalFs) (tracked : FileTracker.Tracked) :
    (∀ e ∈ FileTracker.status localFs tracked,
      e.status ≠ FileTracker.StatusKind.renamed) ∧
    (∀ newP oldP c md, (newP, c) ∈ FileTracker.mdFiles localFs →
      lookupA tracked newP = none → (oldP, md) ∈ tracked →
      oldP ∉ (FileTracker.mdFiles localFs).map Prod.fst →
      ({ path := newP, status := FileTracker.StatusKind.added } :
        FileTracker.FileStatusEntry) ∈ FileTracker.status localFs tracked ∧
      ({ path := oldP, status := FileTracker.StatusKind.deleted, sha := some md.sha } :
        FileTracker.FileStatusEntry) ∈ FileTracker.status localFs tracked) := by
  constructor
  · intro e he hr
    rcases status_kind_cases localFs tracked e he with h | h | h <;>
      rw [hr] at h <;> exact FileTracker.StatusKind.noConfusion h
  · intro newP oldP c md h1 h2 h3 h4
    exact ⟨mem_status_added localFs tracked newP c h1 h2,
      mem_status_deleted localFs tracked oldP md h3 h4⟩

/-- Witness for C9: a rename of old.md to new.md (tracked old path gone,
untracked new path present with the same content) is reported as added plus
deleted. -/
theorem claim_C9_witness :
    (("new.md", "BODY") ∈ FileTracker.mdFiles [("new.md", "BODY")]) ∧
    (lookupA ([("old.md", { sha := "h", content := "BODY" })] : FileTracker.Tracked)
      "new.md" = none) ∧
    (({ path := "new.md", status := FileTracker.StatusKind.added } :
        FileTracker.FileStatusEntry) ∈ FileTracker.status [("new.md", "BODY")]
        [("old.md", { sha := "h", content := "BODY" })] ∧
     ({ path := "old.md", status := FileTracker.StatusKind.deleted, sha := some "h" } :
        FileTracker.FileStatusEntry) ∈ FileTracker.status [("new.md", "BODY")]
        [("old.md", { sha := "h", content := "BODY" })]) :=
  ⟨by decide, by decide,
   (claim_C9 [("new.md", "BODY")] [("old.md", { sha := "h", content := "BODY" })]).2
     "new.md" "old.md" "BODY" { sha := "h", content := "BODY" }
     (by decide) (by decide) (by decide) (by decide)⟩

/-! ## Scheduler lemmas (shared by the coalescing and flush claims) -/

namespace GithubSync

/-- A successful no-rename commitFile call records exactly the path and
content it was invoked with. -/
theorem commitFile_ok_shape (token : Option String) (gh : GhState) (fp c : String)
    (r : GhState × CommitCall)
    (hok : commitFile token gh fp c none none = Except.ok r) :
    r.2.fullPath = fp ∧ r.2.content = c := by
  unfold commitFile at hok
  cases token with
  | none => exact Except.noConfusion hok
  | some tk =>
      cases hrel : getRelativePath fp with
      | none => rw [hrel] at hok; exact Except.noConfusion hok
      | some rel =>
          rw [hrel] at hok
          simp only at hok
          cases hput : remotePut
              (match remoteGet gh.remote rel with
               | some rf => { gh with metadata := setA gh.metadata fp rf.sha }
               | none => gh).remote rel c
              ((remoteGet gh.remote rel).map (fun rf => rf.sha)) with
          | none => rw [hput] at hok; exact Except.noConfusion hok
          | some r2 =>
              rw [hput] at hok
              have := Except.ok.inj hok
              rw [← this]
              exact ⟨rfl, rfl⟩

/-- A no-rename commitFile call with a token and a parseable path always
succeeds: the PUT carries the sha of the GET done in the same call, so the
optimistic-concurrency check always passes. -/
theorem commitFile_norename_ok (tk : String) (gh : GhState) (fp c rel : String)
    (hrel : getRelativePath fp = some rel) :
    ∃ st' sha, commitFile (some tk) gh fp c none none =
      Except.ok (st', { fullPath := fp, relPath := rel, content := c, shaSent := sha }) := by
  cases hg : remoteGet gh.remote rel with
  | none =>
      refine ⟨{ remote := setA gh.remote rel { sha := shaOf c, content := c },
                metadata := setA gh.metadata fp (shaOf c) }, none, ?_⟩
      simp only [commitFile, hrel, hg, remotePut]
      simp [hg]
  | some rf =>
      refine ⟨{ remote := setA gh.remote rel { sha := shaOf c, content := c },
                metadata := setA (setA gh.metadata fp rf.sha) fp (shaOf c) },
              some rf.sha, ?_⟩
      simp only [commitFile, hrel, hg, remotePut]
      simp [hg]

/-- commitPendingChange always leaves the pending map with the path
erased. -/
theorem cp_pending (token : Option String) (s : SyncState) (q : String) :
    (commitPendingChange token s q).pending = eraseA s.pending q := by
  unfold commitPendingChange
  cases hl : lookupPending s q with
  | none =>
      simp only
      exact (eraseA_of_lookupA_none s.pending q hl).symm
  | some pc =>
      simp only
      cases commitFile token s.gh q pc.content none none with
      | ok r => rfl
      | error e => rfl

/-- commitPendingChange never changes the timers, the cancelled set, the
local files or the timer counter. -/
theorem cp_frame (token : Option String) (s : SyncState) (q : String) :
    (commitPendingChange token s q).timers = s.timers ∧
    (commitPendingChange token s q).cancelled = s.cancelled ∧
    (commitPendingChange token s q).localFiles = s.localFiles ∧
    (commitPendingChange token s q).nextTimer = s.nextTimer := by
  unfold commitPendingChange
  cases lookupPending s q with
  | none => exact ⟨rfl, rfl, rfl, rfl⟩
  | some pc =>
      simp only
      cases commitFile token s.gh q pc.content none none with
      | ok r => exact ⟨rfl, rfl, rfl, rfl⟩
      | error e => exact ⟨rfl, rfl, rfl, rfl⟩

/-- The pending entry of any other path is untouched by
commitPendingChange. -/
theorem cp_lookup (token : Option String) (s : SyncState) (q r : String) :
    lookupPending (commitPendingChange token s q) r =
      if r = q then none else lookupPending s r := by
  have hp := cp_pending token s q
  unfold lookupPending
  rw [hp]
  by_cases hrq : r = q
  · rw [if_pos hrq, hrq]
    exact lookupA_eraseA_self _ _
  · rw [if_neg hrq]
    exact lookupA_eraseA_ne _ _ _ hrq

/-- The commits appended by one commitPendingChange: none, or a single call
whose path and content are the pending entry taken for that path. -/
theorem cp_commits (token : Option String) (s : SyncState) (q : String) :
    ∃ L, (commitPendingChange token s q).commits = s.commits ++ L ∧
      (L = [] ∨ ∃ call pc, L = [call] ∧ lookupPending s q = some pc ∧
        call.fullPath = q ∧ call.content = pc.content) := by
  unfold commitPendingChange
  cases hl : lookupPending s q with
  | none => exact ⟨[], by simp⟩
  | some pc =>
      simp only
      cases hcf : commitFile token s.gh q pc.content none none with
      | error e => exact ⟨[], by simp⟩
      | ok r =>
          obtain ⟨hfp, hc⟩ := commitFile_ok_shape token s.gh q pc.content r hcf
          exact ⟨[r.2], rfl, Or.inr ⟨r.2, pc, rfl, rfl, hfp, hc⟩⟩

/-- A fire of a cancelled timer is a no-op. -/
theorem fireTimer_cancelled (token : Option String) (s : SyncState) (tid : Nat)
    (h : tid ∈ s.cancelled) : fireTimer token s tid = s := by
  unfold fireTimer
  rw [if_pos h]

/-- The commits appended by one timer fire: none, or a single call whose
path and content come from the pending entry of the fired path. -/
theorem fire_commits (token : Option String) (s : SyncState) (tid : Nat) :
    ∃ L, (fireTimer token s tid).commits = s.commits ++ L ∧
      (L = [] ∨ ∃ call q pc, L = [call] ∧ lookupPending s q = some pc ∧
        call.fullPath = q ∧ call.content = pc.content) := by
  unfold fireTimer
  by_cases hc : tid ∈ s.cancelled
  · rw [if_pos hc]
    exact ⟨[], by simp⟩
  · rw [if_neg hc]
    cases (s.timers.find? (fun e => e.1 == tid)).map (fun e => e.2) with
    | none => exact ⟨[], by simp⟩
    | some path =>
        obtain ⟨L, hL, hLs⟩ := cp_commits token s path
        refine ⟨L, hL, ?_⟩
        rcases hLs with rfl | ⟨call, pc, rfl, hpc, hfp, hcc⟩
        · exact Or.inl rfl
        · exact Or.inr ⟨call, path, pc, rfl, hpc, hfp, hcc⟩

/-- A fire only ever erases pending entries. -/
theorem fire_lookup_sub (token : Option String) (s : SyncState) (tid : Nat)
    (r : String) :
    lookupPending (fireTimer token s tid) r = none ∨
      lookupPending (fireTimer token s tid) r = lookupPending s r := by
  unfold fireTimer
  by_cases hc : tid ∈ s.cancelled
  · rw [if_pos hc]; exact Or.inr rfl
  · rw [if_neg hc]
    cases (s.timers.find? (fun e => e.1 == tid)).map (fun e => e.2) with
    | none => exact Or.inr rfl
    | some path =>
        rw [cp_lookup]
        by_cases hr : r = path
        · rw [if_pos hr]; exact Or.inl rfl
        · rw [if_neg hr]; exact Or.inr rfl

/-- Key invariant for the coalescing law: if every pending entry for a path
carries a fixed content, every commit appended by any sequence of timer
fires for that path carries that content. -/
theorem fires_only_commit_pending_content (token : Option String) (p c2 : String) :
    ∀ (evs : List Nat) (s : SyncState),
    (∀ pc, lookupPending s p = some pc → pc.content = c2) →
    ∃ L, (evs.foldl (fireTimer token) s).commits = s.commits ++ L ∧
      ∀ call ∈ L, call.fullPath = p → call.content = c2 := by
  intro evs
  induction evs with
  | nil => intro s _; exact ⟨[], by simp⟩
  | cons e rest ih =>
      intro s hJ
      obtain ⟨L1, hL1, hL1s⟩ := fire_commits token s e
      have hJ' : ∀ pc, lookupPending (fireTimer token s e) p = some pc →
          pc.content = c2 := by
        intro pc hpc
        rcases fire_lookup_sub token s e p with h | h
        · rw [h] at hpc; exact Option.noConfusion hpc
        · rw [h] at hpc; exact hJ pc hpc
      obtain ⟨L2, hL2, hL2s⟩ := ih (fireTimer token s e) hJ'
      refine ⟨L1 ++ L2, ?_, ?_⟩
      · rw [List.foldl_cons, hL2, hL1, List.append_assoc]
      · intro call hcall hfp
        rcases List.mem_append.mp hcall with hm | hm
        · rcases hL1s with rfl | ⟨call', q, pc, rfl, hpc, hfp', hcc⟩
          · simp at hm
          · have : call = call' := List.mem_singleton.mp hm
            subst this
            have hqp : q = p := by rw [← hfp, hfp']
            subst hqp
            rw [hcc]
            exact hJ pc hpc
        · exact hL2s call hm hfp

/-- Fires preserve distinctness of the pending keys. -/
theorem fire_keysNodup (token : Option String) (s : SyncState) (tid : Nat)
    (h : keysNodup s.pending) : keysNodup (fireTimer token s tid).pending := by
  unfold fireTimer
  by_cases hc : tid ∈ s.cancelled
  · rw [if_pos hc]; exact h
  · rw [if_neg hc]
    cases (s.timers.find? (fun e => e.1 == tid)).map (fun e => e.2) with
    | none => exact h
    | some path =>
        rw [cp_pending]
        exact keysNodup_eraseA _ _ h

/-- Any sequence of timer fires preserves distinctness of pending keys. -/
theorem fires_keysNodup (token : Option String) :
    ∀ (evs : List Nat) (s : SyncState), keysNodup s.pending →
      keysNodup ((evs.foldl (fireTimer token) s).pending) := by
  intro evs
  induction evs with
  | nil => intro s h; exact h
  | cons e rest ih =>
      intro s h
      exact ih (fireTimer token s e) (fire_keysNodup token s e h)

end GithubSync

/-! ## Claim C3: scheduling twice within the debounce window coalesces -/

/-- C3: schedule of c1 then c2 for the same path (no timer fired between
the calls, the debounce window): the second call cancels the timer created
by the first (firing it afterwards is a no-op) and replaces the pending
content with c2 under a fresh timer; the pending map keeps at most one
entry per path through any sequence of later fires; every commit any later
fire appends for the path carries content c2, never c1; and firing the
fresh timer with a token and a parseable path commits exactly c2.
The freshness hypotheses say timer handles already cancelled or pending
were created before the current timer counter, which holds in every
reachable state. -/
theorem claim_C3 (token : Option String) (s0 : GithubSync.SyncState) (p c1 c2 : String)
    (hnd : keysNodup s0.pending)
    (hfresh : ∀ tid ∈ s0.cancelled, tid < s0.nextTimer)
    (hfreshp : ∀ e ∈ s0.pending, e.2.timerId < s0.nextTimer) :
    GithubSync.lookupPending (GithubSync.scheduleCommit s0 p c1) p =
      some { timerId := s0.nextTimer, content := c1 } ∧
    GithubSync.lookupPending
      (GithubSync.scheduleCommit (GithubSync.scheduleCommit s0 p c1) p c2) p =
      some { timerId := s0.nextTimer + 1, content := c2 } ∧
    s0.nextTimer ∈
      (GithubSync.scheduleCommit (GithubSync.scheduleCommit s0 p c1) p c2).cancelled ∧
    GithubSync.fireTimer token
      (GithubSync.scheduleCommit (GithubSync.scheduleCommit s0 p c1) p c2)
      s0.nextTimer =
      GithubSync.scheduleCommit (GithubSync.scheduleCommit s0 p c1) p c2 ∧
    (∀ evs : List Nat, keysNodup
      ((evs.foldl (GithubSync.fireTimer token)
        (GithubSync.scheduleCommit (GithubSync.scheduleCommit s0 p c1) p c2)).pending)) ∧
    (∀ evs : List Nat, ∃ L,
      (evs.foldl (GithubSync.fireTimer token)
        (GithubSync.scheduleCommit (GithubSync.scheduleCommit s0 p c1) p c2)).commits =
      (GithubSync.scheduleCommit (GithubSync.scheduleCommit s0 p c1) p c2).commits ++ L ∧
      ∀ call ∈ L, call.fullPath = p → call.content = c2) ∧
    (∀ tk rel, token = some tk → GithubSync.getRelativePath p = some rel →
      ∃ call, (GithubSync.fireTimer token
        (GithubSync.scheduleCommit (GithubSync.scheduleCommit s0 p c1) p c2)
        (s0.nextTimer + 1)).commits =
      (GithubSync.scheduleCommit (GithubSync.scheduleCommit s0 p c1) p c2).commits ++
        [call] ∧ call.fullPath = p ∧ call.content = c2) := by
  set s1 := GithubSync.scheduleCommit s0 p c1 with hs1
  set s2 := GithubSync.scheduleCommit s1 p c2 with hs2
  have h1 : GithubSync.lookupPending s1 p =
      some { timerId := s0.nextTimer, content := c1 } := by
    rw [hs1]
    unfold GithubSync.scheduleCommit GithubSync.lookupPending
    exact lookupA_setA_self _ _ _
  have hs1next : s1.nextTimer = s0.nextTimer + 1 := rfl
  have hs1cancel : s1.cancelled = (match GithubSync.lookupPending s0 p with
      | some pc => pc.timerId :: s0.cancelled
      | none => s0.cancelled) := rfl
  have h2 : GithubSync.lookupPending s2 p =
      some { timerId := s0.nextTimer + 1, content := c2 } := by
    rw [hs2]
    unfold GithubSync.scheduleCommit GithubSync.lookupPending
    exact lookupA_setA_self _ _ _
  have h3 : s2.cancelled = s0.nextTimer :: s1.cancelled := by
    rw [hs2]
    unfold GithubSync.scheduleCommit
    rw [h1]
  have h3mem : s0.nextTimer ∈ s2.cancelled := by
    rw [h3]
    exact List.mem_cons_self _ _
  have h4 : GithubSync.fireTimer token s2 s0.nextTimer = s2 :=
    GithubSync.fireTimer_cancelled token s2 s0.nextTimer h3mem
  have h5 : keysNodup s2.pending := by
    have : keysNodup s1.pending := keysNodup_setA _ _ _ hnd
    exact keysNodup_setA _ _ _ this
  refine ⟨h1, h2, h3mem, h4, ?_, ?_, ?_⟩
  · intro evs
    exact GithubSync.fires_keysNodup token evs s2 h5
  · intro evs
    apply GithubSync.fires_only_commit_pending_content token p c2 evs s2
    intro pc hpc
    rw [h2] at hpc
    rw [← Option.some_inj.mp hpc]
  · intro tk rel htk hrel
    have hnotc : s0.nextTimer + 1 ∉ s2.cancelled := by
      rw [h3, hs1cancel]
      intro hmem
      rcases List.mem_cons.mp hmem with heq | hmem1
      · omega
      · cases hl0 : GithubSync.lookupPending s0 p with
        | some pc0 =>
            rw [hl0] at hmem1
            rcases List.mem_cons.mp hmem1 with heq1 | hmem2
            · have hl0' : lookupA s0.pending p = some pc0 := hl0
              have hppc : (p, pc0) ∈ s0.pending := mem_of_lookupA _ _ _ hl0'
              have := hfreshp (p, pc0) hppc
              simp only at this
              omega
            · have := hfresh _ hmem2
              omega
        | none =>
            rw [hl0] at hmem1
            have := hfresh _ hmem1
            omega
    have hfind : (s2.timers.find? (fun e => e.1 == s0.nextTimer + 1)).map
        (fun e => e.2) = some p := by
      have : s2.timers = (s0.nextTimer + 1, p) :: s1.timers := by
        rw [hs2]
        unfold GithubSync.scheduleCommit
        rfl
      rw [this]
      simp [List.find?]
    unfold GithubSync.fireTimer
    rw [if_neg hnotc, hfind]
    simp only
    unfold GithubSync.commitPendingChange
    rw [h2]
    simp only
    obtain ⟨st', sha, hok⟩ := GithubSync.commitFile_norename_ok tk
      { s2 with pending := eraseA s2.pending p }.gh p c2 rel hrel
    rw [htk, hok]
    exact ⟨{ fullPath := p, relPath := rel, content := c2, shaSent := sha }, rfl, rfl, rfl⟩

/-- The scheduler state at module load: empty pending map, no timers, no
commits (pendingChanges starts as an empty object). -/
def initialSyncState : GithubSync.SyncState :=
  { gh := { remote := [], metadata := [] }, localFiles := [], pending := [],
    cancelled := [], timers := [], nextTimer := 0, commits := [] }

/-- Witness for C3: from the initial module state, scheduling one then two
for the same path leaves two as the only pending content. -/
theorem claim_C3_witness :
    keysNodup initialSyncState.pending ∧
    GithubSync.lookupPending
      (GithubSync.scheduleCommit
        (GithubSync.scheduleCommit initialSyncState "repos/notes/a.md" "one")
        "repos/notes/a.md" "two") "repos/notes/a.md" =
      some { timerId := 1, content := "two" } :=
  ⟨by unfold keysNodup initialSyncState; exact List.nodup_nil,
   (claim_C3 (some "t") initialSyncState "repos/notes/a.md" "one" "two"
     (by unfold keysNodup initialSyncState; exact List.nodup_nil)
     (by intro tid h; simp [initialSyncState] at h)
     (by intro e h; simp [initialSyncState] at h)).2.1⟩

/-! ## Flush lemmas and claim C4 -/

namespace GithubSync

/-- Folding commitPendingChange over a set of paths covering every pending
key empties the pending map. -/
theorem fold_cp_pending_nil (token : Option String) :
    ∀ (paths : List String) (s : SyncState),
    (∀ e ∈ s.pending, e.1 ∈ paths) →
    ((paths.foldl (commitPendingChange token) s).pending) = [] := by
  intro paths
  induction paths with
  | nil =>
      intro s h
      simp only [List.foldl_nil]
      cases hp : s.pending with
      | nil => rfl
      | cons a t =>
          have := h a (hp ▸ List.mem_cons_self a t)
          simp at this
  | cons x rest ih =>
      intro s h
      rw [List.foldl_cons]
      apply ih
      intro e he
      rw [cp_pending] at he
      have hmem : e ∈ s.pending := List.mem_of_mem_filter he
      have hne : e.1 ≠ x := by
        have := List.of_mem_filter he
        exact bne_iff_ne.mp this
      rcases List.mem_cons.mp (h e hmem) with heq | hrest
      · exact absurd heq hne
      · exact hrest

/-- Flushing empties the pending map. -/
theorem flush_pending_nil (token : Option String) (s : SyncState) :
    (commitAllPendingChanges token s).pending = [] := by
  unfold commitAllPendingChanges
  apply fold_cp_pending_nil
  intro e he
  exact List.mem_map.mpr ⟨e, he, rfl⟩

/-- Flushing with nothing pending is a no-op. -/
theorem flush_of_empty (token : Option String) (s : SyncState)
    (h : s.pending = []) : commitAllPendingChanges token s = s := by
  unfold commitAllPendingChanges
  rw [h]
  simp only [List.map_nil, List.foldl_nil, List.nil_append]
  rw [← h]

/-- The commits appended by folding commitPendingChange over any path list:
at most one per path, and none for a path with nothing pending. -/
theorem fold_cp_commits (token : Option String) :
    ∀ (paths : List String) (s : SyncState),
    ∃ L, ((paths.foldl (commitPendingChange token) s).commits = s.commits ++ L) ∧
      (∀ q, L.countP (fun call => call.fullPath == q) ≤ 1) ∧
      (∀ q, lookupPending s q = none →
        L.countP (fun call => call.fullPath == q) = 0) := by
  intro paths
  induction paths with
  | nil =>
      intro s
      exact ⟨[], by simp, fun q => by simp [List.countP_nil], fun q _ => by
        simp [List.countP_nil]⟩
  | cons x rest ih =>
      intro s
      obtain ⟨L1, hL1, hL1s⟩ := cp_commits token s x
      obtain ⟨L2, hL2, hcnt2, hz2⟩ := ih (commitPendingChange token s x)
      refine ⟨L1 ++ L2, ?_, ?_, ?_⟩
      · rw [List.foldl_cons, hL2, hL1, List.append_assoc]
      · intro q
        rw [List.countP_append]
        by_cases hqx : q = x
        · subst hqx
          have hz : L2.countP (fun call => call.fullPath == q) = 0 := by
            apply hz2
            rw [cp_lookup]
            rw [if_pos rfl]
          rw [hz]
          rcases hL1s with rfl | ⟨call, pc, rfl, hpc, hfp, hcc⟩
          · simp [List.countP_nil]
          · simp only [List.countP_cons, List.countP_nil, Nat.zero_add, Nat.add_zero]
            split <;> omega
        · have hz1 : L1.countP (fun call => call.fullPath == q) = 0 := by
            rcases hL1s with rfl | ⟨call, pc, rfl, hpc, hfp, hcc⟩
            · simp [List.countP_nil]
            · have : (call.fullPath == q) = false := by
                rw [hfp]
                exact beq_eq_false_iff_ne.mpr (fun e => hqx e.symm)
              simp [List.countP_cons, List.countP_nil, this]
          rw [hz1]
          simpa using hcnt2 q
      · intro q hq
        rw [List.countP_append]
        have hz1 : L1.countP (fun call => call.fullPath == q) = 0 := by
          rcases hL1s with rfl | ⟨call, pc, rfl, hpc, hfp, hcc⟩
          · simp [List.countP_nil]
          · have hqx : q ≠ x := by
              intro e
              rw [e] at hq
              rw [hq] at hpc
              exact Option.noConfusion hpc
            have : (call.fullPath == q) = false := by
              rw [hfp]
              exact beq_eq_false_iff_ne.mpr (fun e => hqx e.symm)
            simp [List.countP_cons, List.countP_nil, this]
        have hz2' : L2.countP (fun call => call.fullPath == q) = 0 := by
          apply hz2
          rw [cp_lookup]
          by_cases hqx : q = x
          · rw [if_pos hqx]
          · rw [if_neg hqx]
            exact hq
        rw [hz1, hz2']

end GithubSync

/-- C4: flushAll is idempotent.  One flush empties the pending map; a
second flush of the result is the identity and so performs no remote
writes; flushing with nothing pending is a no-op; and the writes of a
flush are at most one per path. -/
theorem claim_C4 (token : Option String) (s : GithubSync.SyncState) :
    ((GithubSync.commitAllPendingChanges token s).pending = []) ∧
    (GithubSync.commitAllPendingChanges token
      (GithubSync.commitAllPendingChanges token s) =
      GithubSync.commitAllPendingChanges token s) ∧
    (s.pending = [] → GithubSync.commitAllPendingChanges token s = s) ∧
    (∃ L, (GithubSync.commitAllPendingChanges token s).commits = s.commits ++ L ∧
      ∀ q, L.countP (fun call => call.fullPath == q) ≤ 1) := by
  refine ⟨GithubSync.flush_pending_nil token s, ?_, GithubSync.flush_of_empty token s, ?_⟩
  · exact GithubSync.flush_of_empty token _ (GithubSync.flush_pending_nil token s)
  · unfold GithubSync.commitAllPendingChanges
    obtain ⟨L, hL, hcnt, _⟩ := GithubSync.fold_cp_commits token (s.pending.map Prod.fst)
      { s with cancelled := s.pending.map (fun e => e.2.timerId) ++ s.cancelled }
    exact ⟨L, hL, hcnt⟩

/-- Witness for C4 at a concrete state with one pending commit. -/
theorem claim_C4_witness :
    ((GithubSync.commitAllPendingChanges (some "t")
      { gh := { remote := [], metadata := [] }, localFiles := [],
        pending := [("repos/notes/a.md", { timerId := 0, content := "c" })],
        cancelled := [], timers := [(0, "repos/notes/a.md")], nextTimer := 1,
        commits := [] }).pending = []) ∧
    (GithubSync.commitAllPendingChanges (some "t")
      (GithubSync.commitAllPendingChanges (some "t")
        { gh := { remote := [], metadata := [] }, localFiles := [],
          pending := [("repos/notes/a.md", { timerId := 0, content := "c" })],
          cancelled := [], timers := [(0, "repos/notes/a.md")], nextTimer := 1,
          commits := [] }) =
      GithubSync.commitAllPendingChanges (some "t")
        { gh := { remote := [], metadata := [] }, localFiles := [],
          pending := [("repos/notes/a.md", { timerId := 0, content := "c" })],
          cancelled := [], timers := [(0, "repos/notes/a.md")], nextTimer := 1,
          commits := [] }) :=
  ⟨(claim_C4 (some "t")
     { gh := { remote := [], metadata := [] }, localFiles := [],
       pending := [("repos/notes/a.md", { timerId := 0, content := "c" })],
       cancelled := [], timers := [(0, "repos/notes/a.md")], nextTimer := 1,
       commits := [] }).1,
   (claim_C4 (some "t")
     { gh := { remote := [], metadata := [] }, localFiles := [],
       pending := [("repos/notes/a.md", { timerId := 0, content := "c" })],
       cancelled := [], timers := [(0, "repos/notes/a.md")], nextTimer := 1,
       commits := [] }).2.1⟩
